import Mathlib

/-!
# Verification of the Backup-and-Restore system (`src/Backup.py`)

A shallow embedding of the manifest-driven backup engine implemented by the
`BackupSystem` class in `src/Backup.py`.  File contents are byte lists, the
filesystem effects of one run (per-run subfolders under the backup root and
the manifest store) are explicit state, and each strategy
(`full_backup`, `incremental_backup`, `differential_backup`) is a pure
function from the pre-state, the walked source tree, the run timestamp and a
fault scenario to the post-state, the returned outcome and the trace of
filesystem events the run performed.
-/

set_option autoImplicit false
set_option maxRecDepth 100000

namespace Backup

/-- The `type` field of a manifest record: `'full' | 'incremental' | 'differential'`. -/
inductive BackupType where
  | full
  | incremental
  | differential
deriving DecidableEq

/-- File contents as a byte stream (what `open(filepath, "rb")` reads). -/
abbrev Content := List Nat

/-- `BackupSystem._calculate_file_hash`: streams the whole file content
(in 4096-byte chunks in the source) into an MD5 digest.  The claims under
verification observe digests only through equality tests for change
detection, so the digest is modelled as a faithful rendering of the full
content stream; equal contents give equal digests, and the model abstracts
from MD5 collisions. -/
def calculate_file_hash (content : Content) : String :=
  toString content

/-- One entry of the manifest's `backups` list, as built by
`full_backup` / `incremental_backup` / `differential_backup`:
`{'type': ..., 'timestamp': ..., 'path': ..., 'files': {...}}` plus an
optional `'parent'` key.  The `files` mapping is an association list from
relative path to digest, in insertion order. -/
structure BackupRecord where
  type : BackupType
  timestamp : String
  path : String
  files : List (String × String)
  parent : Option String
deriving DecidableEq

/-- The manifest dictionary `{'backups': [...]}`. -/
structure Manifest where
  backups : List BackupRecord
deriving DecidableEq

/-- The source tree as enumerated by `self.source_dir.rglob('*')` restricted
to regular files, in walk order: each entry is the path relative to the
source root (`src_file.relative_to(self.source_dir)`) paired with the file's
content. -/
abbrev Source := List (String × Content)

/-- Association-list lookup with decidable string equality
(`rel_path in last_files` / `last_files[rel_path]`). -/
def dictLookup {α : Type} (k : String) : List (String × α) → Option α
  | [] => none
  | p :: rest => if p.1 = k then some p.2 else dictLookup k rest

/-- Python dict assignment `d[k] = v`: replace the binding if the key is
present, otherwise append the new binding (dicts preserve insertion order). -/
def dictInsert {α : Type} (d : List (String × α)) (k : String) (v : α) : List (String × α) :=
  match dictLookup k d with
  | some _ => d.map (fun p => if p.1 = k then (k, v) else p)
  | none => d ++ [(k, v)]

/-- Contents of one per-run backup folder: relative path of each copied file
(`dest_file = backup_path / rel_path`) to the copied bytes. -/
abbrev FolderFiles := List (String × Content)

/-- State of the persisted manifest file `backup_manifest.json` as the engine
sees it through `_load_manifest` / `_save_manifest`:
absent, holding a well-formed serialization of a manifest, or holding bytes
that do not parse (for example the truncation left behind by a failed
in-place `json.dump`; the byte-level model of this is `save_manifest_file`
below). -/
inductive StoreState where
  | absent
  | corrupt
  | ok (m : Manifest)
deriving DecidableEq

/-- `BackupSystem._load_manifest`: returns the parsed manifest when the file
exists and parses; a missing file or any exception (caught and logged)
yields `{'backups': []}`. -/
def load_manifest : StoreState → Manifest
  | .absent => ⟨[]⟩
  | .corrupt => ⟨[]⟩
  | .ok m => m

/-- The filesystem state a run can observe and modify: the per-run
subfolders under the backup root (name to copied files) and the manifest
store. -/
structure FS where
  folders : List (String × FolderFiles)
  store : StoreState
deriving DecidableEq

/-- `backup_path.mkdir(parents=True, exist_ok=True)`: create the folder
empty if absent, keep it as is if already present. -/
def mkdirFolder (fs : List (String × FolderFiles)) (name : String) : List (String × FolderFiles) :=
  match dictLookup name fs with
  | some _ => fs
  | none => fs ++ [(name, [])]

/-- `shutil.rmtree(backup_path)`: remove the folder and everything in it. -/
def rmtreeFolder (fs : List (String × FolderFiles)) (name : String) : List (String × FolderFiles) :=
  fs.filter (fun p => !(p.1 = name : Bool))

/-- Replace the contents of an existing folder. -/
def setFolder (fs : List (String × FolderFiles)) (name : String) (c : FolderFiles) :
    List (String × FolderFiles) :=
  fs.map (fun p => if p.1 = name then (name, c) else p)

/-- Fault scenarios injected into one run:
`none` for a fault-free run; `ioError i` for an exception raised while
processing the `i`-th file of the walk (a read, hash or copy failure);
`saveFault n` for a `_save_manifest` call that fails after writing `n`
characters of the new serialization. -/
inductive RunFault where
  | none
  | ioError (i : Nat)
  | saveFault (n : Nat)
deriving DecidableEq

/-- Filesystem events a run performs, in order. -/
inductive Event where
  | mkdir (name : String)
  | rmtree (name : String)
  | saveAttempt
deriving DecidableEq

/-- What a strategy call returns to its caller:
`completed path count` for a normal return `(backup_path, n)`,
`skipped` for the `(None, 0)` returns, and `failed` when the exception is
re-raised. -/
inductive Outcome where
  | completed (path : String) (count : Nat)
  | skipped
  | failed
deriving DecidableEq

/-- Result of one engine run: final filesystem state, outcome reported to
the caller, and the trace of filesystem events. -/
structure RunResult where
  fs : FS
  outcome : Outcome
  events : List Event
deriving DecidableEq

/-- Whether the injected fault aborts the walk/hash/copy loop: an `ioError`
at an index that the walk actually reaches. -/
def loopFails (fault : RunFault) (src : Source) : Bool :=
  match fault with
  | .ioError i => i < src.length
  | _ => false

/-- The copy test of `incremental_backup` / `differential_backup`:
`rel_path not in last_files or last_files[rel_path] != current_hash`. -/
def shouldCopy (last_files : List (String × String)) (f : String × Content) : Bool :=
  match dictLookup f.1 last_files with
  | none => true
  | some h => !(h = calculate_file_hash f.2 : Bool)

/-- The walk/hash/copy loop of `full_backup`: every regular file is copied
into the backup folder at its relative path and its digest is recorded in
`file_manifest`.  `init` is the contents the destination folder already had
when the run created it (normally empty). -/
def full_loop (init : FolderFiles) (src : Source) : FolderFiles × List (String × String) :=
  src.foldl
    (fun acc f => (dictInsert acc.1 f.1 f.2, dictInsert acc.2 f.1 (calculate_file_hash f.2)))
    (init, [])

/-- The shared walk/hash/copy loop of `incremental_backup` and
`differential_backup`: a file is copied and recorded in the new `files`
mapping exactly when `shouldCopy` holds of it against the reference set
`last_files`; the run also counts the files backed up. -/
def delta_loop (init : FolderFiles) (last_files : List (String × String)) (src : Source) :
    FolderFiles × List (String × String) × Nat :=
  src.foldl
    (fun acc f =>
      if shouldCopy last_files f then
        (dictInsert acc.1 f.1 f.2, dictInsert acc.2.1 f.1 (calculate_file_hash f.2), acc.2.2 + 1)
      else acc)
    (init, [], 0)

/-- `BackupSystem.full_backup`.  Mirrors the source: build
`full_backup_<timestamp>` under the backup root, load the manifest, walk the
source copying every file and recording digests, append a `full` record with
no parent and save; on any exception in the loop or in the save, remove the
backup folder and re-raise.  A failing save leaves the manifest file
truncated mid-write (`StoreState.corrupt`, see `save_manifest_file`). -/
def full_backup (fs : FS) (src : Source) (timestamp : String) (fault : RunFault) : RunResult :=
  let backup_path := "full_backup_" ++ timestamp
  let folders1 := mkdirFolder fs.folders backup_path
  let manifest := load_manifest fs.store
  if loopFails fault src then
    { fs := { folders := rmtreeFolder folders1 backup_path, store := fs.store },
      outcome := .failed,
      events := [.mkdir backup_path, .rmtree backup_path] }
  else
    let r := full_loop ((dictLookup backup_path folders1).getD []) src
    let backup_info : BackupRecord :=
      { type := .full, timestamp := timestamp, path := backup_path, files := r.2, parent := none }
    let manifest2 : Manifest := ⟨manifest.backups ++ [backup_info]⟩
    match fault with
    | .saveFault _ =>
      { fs := { folders := rmtreeFolder folders1 backup_path, store := .corrupt },
        outcome := .failed,
        events := [.mkdir backup_path, .saveAttempt, .rmtree backup_path] }
    | _ =>
      { fs := { folders := setFolder folders1 backup_path r.1, store := .ok manifest2 },
        outcome := .completed backup_path src.length,
        events := [.mkdir backup_path, .saveAttempt] }

/-- `BackupSystem.incremental_backup`.  Mirrors the source: load the
manifest; if `backups` is empty return the skipped outcome `(None, 0)`
before touching the filesystem; otherwise the reference set is the `files`
map of `manifest['backups'][-1]` (whatever its kind), the folder
`incr_backup_<timestamp>` is created, the delta loop copies every new or
changed file, and afterwards either the empty folder is removed and the run
reports no changes, or an `incremental` record with
`parent = last_backup['timestamp']` is appended and saved.  Exceptions in
the loop or the save remove the folder and re-raise. -/
def incremental_backup (fs : FS) (src : Source) (timestamp : String) (fault : RunFault) :
    RunResult :=
  let manifest := load_manifest fs.store
  match manifest.backups.getLast? with
  | Option.none => { fs := fs, outcome := .skipped, events := [] }
  | some last_backup =>
    let last_files := last_backup.files
    let backup_path := "incr_backup_" ++ timestamp
    let folders1 := mkdirFolder fs.folders backup_path
    if loopFails fault src then
      { fs := { folders := rmtreeFolder folders1 backup_path, store := fs.store },
        outcome := .failed,
        events := [.mkdir backup_path, .rmtree backup_path] }
    else
      let r := delta_loop ((dictLookup backup_path folders1).getD []) last_files src
      let new_files := r.2.1
      if new_files.isEmpty then
        { fs := { folders := rmtreeFolder folders1 backup_path, store := fs.store },
          outcome := .skipped,
          events := [.mkdir backup_path, .rmtree backup_path] }
      else
        let backup_info : BackupRecord :=
          { type := .incremental, timestamp := timestamp, path := backup_path,
            files := new_files, parent := some last_backup.timestamp }
        let manifest2 : Manifest := ⟨manifest.backups ++ [backup_info]⟩
        match fault with
        | .saveFault _ =>
          { fs := { folders := rmtreeFolder folders1 backup_path, store := .corrupt },
            outcome := .failed,
            events := [.mkdir backup_path, .saveAttempt, .rmtree backup_path] }
        | _ =>
          { fs := { folders := setFolder folders1 backup_path r.1, store := .ok manifest2 },
            outcome := .completed backup_path r.2.2,
            events := [.mkdir backup_path, .saveAttempt] }

/-- The backward search of `differential_backup` for the reference record:
`for backup in reversed(manifest['backups']): if backup['type'] == 'full'`. -/
def findLastFull (backups : List BackupRecord) : Option BackupRecord :=
  backups.reverse.find? (fun b => b.type = BackupType.full)

/-- `BackupSystem.differential_backup`.  Mirrors the source: load the
manifest; if `backups` is empty, or no record of kind `full` exists
(searching backward from the most recent record), return the skipped
outcome before touching the filesystem.  Otherwise the reference set is the
nearest `full` record's `files` map, the folder `diff_backup_<timestamp>` is
created, and the run proceeds exactly as the incremental one except that the
appended record has type `differential` and `parent = last_full['timestamp']`. -/
def differential_backup (fs : FS) (src : Source) (timestamp : String) (fault : RunFault) :
    RunResult :=
  let manifest := load_manifest fs.store
  if manifest.backups.isEmpty then
    { fs := fs, outcome := .skipped, events := [] }
  else
    match findLastFull manifest.backups with
    | Option.none => { fs := fs, outcome := .skipped, events := [] }
    | some last_full =>
      let last_files := last_full.files
      let backup_path := "diff_backup_" ++ timestamp
      let folders1 := mkdirFolder fs.folders backup_path
      if loopFails fault src then
        { fs := { folders := rmtreeFolder folders1 backup_path, store := fs.store },
          outcome := .failed,
          events := [.mkdir backup_path, .rmtree backup_path] }
      else
        let r := delta_loop ((dictLookup backup_path folders1).getD []) last_files src
        let changed_files := r.2.1
        if changed_files.isEmpty then
          { fs := { folders := rmtreeFolder folders1 backup_path, store := fs.store },
            outcome := .skipped,
            events := [.mkdir backup_path, .rmtree backup_path] }
        else
          let backup_info : BackupRecord :=
            { type := .differential, timestamp := timestamp, path := backup_path,
              files := changed_files, parent := some last_full.timestamp }
          let manifest2 : Manifest := ⟨manifest.backups ++ [backup_info]⟩
          match fault with
          | .saveFault _ =>
            { fs := { folders := rmtreeFolder folders1 backup_path, store := .corrupt },
              outcome := .failed,
              events := [.mkdir backup_path, .saveAttempt, .rmtree backup_path] }
          | _ =>
            { fs := { folders := setFolder folders1 backup_path r.1, store := .ok manifest2 },
              outcome := .completed backup_path r.2.2,
              events := [.mkdir backup_path, .saveAttempt] }

/-- The three strategies a caller can request. -/
inductive Strategy where
  | full
  | incremental
  | differential
deriving DecidableEq

/-- Dispatch a requested strategy to its implementation. -/
def run_backup : Strategy → FS → Source → String → RunFault → RunResult
  | .full => full_backup
  | .incremental => incremental_backup
  | .differential => differential_backup

/-- Name of the per-run subfolder each strategy creates for a given
timestamp. -/
def runFolderName : Strategy → String → String
  | .full, ts => "full_backup_" ++ ts
  | .incremental, ts => "incr_backup_" ++ ts
  | .differential, ts => "diff_backup_" ++ ts

/-- Whether a run of strategy `s` from state `fs` passes its precondition
checks and reaches the walk/hash/copy loop. -/
def reachesLoop (s : Strategy) (fs : FS) : Bool :=
  match s with
  | .full => true
  | .incremental => (load_manifest fs.store).backups.getLast?.isSome
  | .differential => (findLastFull (load_manifest fs.store).backups).isSome

/-! ## Byte-level model of the manifest file

`_save_manifest` opens `backup_manifest.json` in write mode — which
truncates it — and streams `json.dump(manifest, f, indent=4)` into it in
place; on an exception it logs and re-raises.  There is no temporary file
and no atomic rename, so a failure after `n` characters leaves the file
holding exactly the first `n` characters of the new serialization.
`_load_manifest` parses the file and silently substitutes `{'backups': []}`
for anything that does not parse.  The definitions below model the
serialization (whitespace compacted; the `indent=4` pretty-printing is
irrelevant to every claim), the truncating write, and a parser for the
format, so that the fate of a half-written manifest file is observable. -/

/-- Render a `BackupType` the way the source stores it in the `type` field. -/
def typeName : BackupType → String
  | .full => "full"
  | .incremental => "incremental"
  | .differential => "differential"

/-- JSON string literal (the paths, digests and timestamps written by the
engine contain no characters needing escapes). -/
def jsonStr (s : String) : String :=
  "\"" ++ s ++ "\""

/-- Serialize the `files` mapping as a JSON object. -/
def serializeFiles (files : List (String × String)) : String :=
  "\x7b" ++ String.intercalate ", " (files.map (fun p => jsonStr p.1 ++ ": " ++ jsonStr p.2))
    ++ "\x7d"

/-- Serialize one backup record as a JSON object with the keys the engine
writes: `type`, `timestamp`, `path`, `files` and, when present, `parent`. -/
def serializeRecord (r : BackupRecord) : String :=
  "\x7b\"type\": " ++ jsonStr (typeName r.type)
    ++ ", \"timestamp\": " ++ jsonStr r.timestamp
    ++ ", \"path\": " ++ jsonStr r.path
    ++ ", \"files\": " ++ serializeFiles r.files
    ++ (match r.parent with
        | Option.none => ""
        | some p => ", \"parent\": " ++ jsonStr p)
    ++ "\x7d"

/-- Serialize the whole manifest: `{"backups": [ ... ]}`. -/
def serializeManifest (m : Manifest) : String :=
  "\x7b\"backups\": [" ++ String.intercalate ", " (m.backups.map serializeRecord) ++ "]\x7d"

/-- `_save_manifest` at the byte level: `open(self.manifest_file, 'w')`
truncates the file and `json.dump` writes the new serialization into it in
place.  `fault = none` models a completed write; `fault = some n` models a
write that fails after emitting `n` characters — the file is left with just
those characters and the exception is re-raised (`Bool` is the
raised-to-caller flag). -/
def save_manifest_file (m : Manifest) (fault : Option Nat) : String × Bool :=
  match fault with
  | Option.none => (serializeManifest m, false)
  | some n => ((serializeManifest m).take n, true)

/-- Consume an expected literal from the input, failing otherwise. -/
def expectLit : List Char → List Char → Option (List Char)
  | [], l => some l
  | _ :: _, [] => Option.none
  | p :: ps, c :: cs => if c = p then expectLit ps cs else Option.none

/-- Consume the expected string `lit` from the input. -/
def expectStr (lit : String) (l : List Char) : Option (List Char) :=
  expectLit lit.toList l

/-- Body of a JSON string literal up to the closing quote. -/
def parseStrAux : List Char → List Char → Option (String × List Char)
  | [], _ => Option.none
  | c :: rest, acc =>
    if c = '\"' then some (String.mk acc.reverse, rest) else parseStrAux rest (c :: acc)

/-- A JSON string literal (no escape handling; the engine writes none). -/
def parseStr : List Char → Option (String × List Char)
  | [] => Option.none
  | c :: rest => if c = '\"' then parseStrAux rest [] else Option.none

/-- One `"path": "digest"` pair of the `files` object. -/
def parsePair (l : List Char) : Option ((String × String) × List Char) := do
  let (k, l1) ← parseStr l
  let l2 ← expectStr ": " l1
  let (v, l3) ← parseStr l2
  some ((k, v), l3)

/-- Remaining pairs of a non-empty `files` object, then the closing brace. -/
def parseFilesAux : Nat → List Char → List (String × String) →
    Option (List (String × String) × List Char)
  | 0, _, _ => Option.none
  | fuel + 1, l, acc =>
    match expectStr ", " l with
    | some l1 => do
      let (p, l2) ← parsePair l1
      parseFilesAux fuel l2 (acc ++ [p])
    | Option.none => do
      let l1 ← expectStr "\x7d" l
      some (acc, l1)

/-- The `files` JSON object. -/
def parseFiles (l : List Char) : Option (List (String × String) × List Char) := do
  let l1 ← expectStr "\x7b" l
  match expectStr "\x7d" l1 with
  | some l2 => some ([], l2)
  | Option.none => do
    let (p, l2) ← parsePair l1
    parseFilesAux l2.length l2 [p]

/-- Decode the stored `type` field. -/
def typeOfString (s : String) : Option BackupType :=
  if s = "full" then some .full
  else if s = "incremental" then some .incremental
  else if s = "differential" then some .differential
  else Option.none

/-- One record object of the `backups` array. -/
def parseRecord (l : List Char) : Option (BackupRecord × List Char) := do
  let l1 ← expectStr "\x7b\"type\": " l
  let (tys, l2) ← parseStr l1
  let ty ← typeOfString tys
  let l3 ← expectStr ", \"timestamp\": " l2
  let (ts, l4) ← parseStr l3
  let l5 ← expectStr ", \"path\": " l4
  let (pa, l6) ← parseStr l5
  let l7 ← expectStr ", \"files\": " l6
  let (fi, l8) ← parseFiles l7
  match expectStr ", \"parent\": " l8 with
  | some l9 => do
    let (par, l10) ← parseStr l9
    let l11 ← expectStr "\x7d" l10
    some (⟨ty, ts, pa, fi, some par⟩, l11)
  | Option.none => do
    let l9 ← expectStr "\x7d" l8
    some (⟨ty, ts, pa, fi, Option.none⟩, l9)

/-- Remaining records of a non-empty `backups` array, then `]}`. -/
def parseRecordsAux : Nat → List Char → List BackupRecord →
    Option (List BackupRecord × List Char)
  | 0, _, _ => Option.none
  | fuel + 1, l, acc =>
    match expectStr ", " l with
    | some l1 => do
      let (r, l2) ← parseRecord l1
      parseRecordsAux fuel l2 (acc ++ [r])
    | Option.none => do
      let l1 ← expectStr "]\x7d" l
      some (acc, l1)

/-- `json.load` on the manifest file format: `none` models the parse
exception. -/
def parseManifest (s : String) : Option Manifest := do
  let l ← expectStr "\x7b\"backups\": [" s.toList
  match expectStr "]\x7d" l with
  | some l1 => if l1.isEmpty then some ⟨[]⟩ else Option.none
  | Option.none => do
    let (r, l1) ← parseRecord l
    let (rs, l2) ← parseRecordsAux l1.length l1 [r]
    if l2.isEmpty then some ⟨rs⟩ else Option.none

/-- `_load_manifest` at the byte level: a missing file yields
`{'backups': []}`; existing contents are parsed, and any parse failure is
caught, logged and silently replaced by `{'backups': []}` — the load never
raises. -/
def load_manifest_file (content : Option String) : Manifest :=
  match content with
  | Option.none => ⟨[]⟩
  | some s =>
    match parseManifest s with
    | some m => m
    | Option.none => ⟨[]⟩

/-! ## Characterization lemmas for the loops and the dictionary model -/

theorem dictLookup_append {α : Type} (k : String) (l₁ l₂ : List (String × α))
    (h : dictLookup k l₁ = Option.none) :
    dictLookup k (l₁ ++ l₂) = dictLookup k l₂ := by
  induction l₁ with
  | nil => rfl
  | cons p rest ih =>
    by_cases hk : p.1 = k
    · simp [dictLookup, hk] at h
    · simp [dictLookup, hk] at h ⊢
      exact ih h

theorem dictLookup_eq_none_iff {α : Type} (k : String) (l : List (String × α)) :
    dictLookup k l = Option.none ↔ k ∉ l.map Prod.fst := by
  induction l with
  | nil => simp [dictLookup]
  | cons p rest ih =>
    by_cases hk : p.1 = k
    · simp [dictLookup, hk]
    · simp [dictLookup, hk, ih, Ne.symm hk]

theorem dictInsert_of_lookup_none {α : Type} (d : List (String × α)) (k : String) (v : α)
    (h : dictLookup k d = Option.none) :
    dictInsert d k v = d ++ [(k, v)] := by
  simp [dictInsert, h]

theorem foldl_pair {α β γ : Type} (g₁ : α → γ → α) (g₂ : β → γ → β) (l : List γ)
    (a : α) (b : β) :
    l.foldl (fun acc x => (g₁ acc.1 x, g₂ acc.2 x)) (a, b) = (l.foldl g₁ a, l.foldl g₂ b) := by
  induction l generalizing a b with
  | nil => rfl
  | cons x rest ih => simp [List.foldl, ih]

theorem foldl_triple {α β γ δ : Type} (g₁ : α → δ → α) (g₂ : β → δ → β) (g₃ : γ → δ → γ)
    (l : List δ) (a : α) (b : β) (c : γ) :
    l.foldl (fun acc x => (g₁ acc.1 x, g₂ acc.2.1 x, g₃ acc.2.2 x)) (a, b, c)
      = (l.foldl g₁ a, l.foldl g₂ b, l.foldl g₃ c) := by
  induction l generalizing a b c with
  | nil => rfl
  | cons x rest ih => simp [List.foldl, ih]

theorem foldl_if_filter {α β : Type} (p : β → Bool) (g : α → β → α) (l : List β) (a : α) :
    l.foldl (fun acc x => if p x then g acc x else acc) a = (l.filter p).foldl g a := by
  induction l generalizing a with
  | nil => rfl
  | cons x rest ih =>
    by_cases hx : p x <;> simp [List.filter, hx, ih]

theorem foldl_count {β : Type} (l : List β) (n : Nat) :
    l.foldl (fun c _ => c + 1) n = n + l.length := by
  induction l generalizing n with
  | nil => rfl
  | cons x rest ih => simp [List.foldl, ih]; omega

theorem foldl_dictInsert {α ι : Type} (key : ι → String) (val : ι → α) (l : List ι)
    (d : List (String × α)) (hnd : (l.map key).Nodup)
    (hdisj : ∀ k ∈ l.map key, dictLookup k d = Option.none) :
    l.foldl (fun d p => dictInsert d (key p) (val p)) d = d ++ l.map (fun p => (key p, val p)) := by
  induction l generalizing d with
  | nil => simp
  | cons x rest ih =>
    have hx : dictLookup (key x) d = Option.none := hdisj _ (by simp)
    have hnd' : (rest.map key).Nodup := (List.nodup_cons.mp hnd).2
    have hxrest : key x ∉ rest.map key := (List.nodup_cons.mp hnd).1
    have hdisj' : ∀ k ∈ rest.map key, dictLookup k (d ++ [(key x, val x)]) = Option.none := by
      intro k hk
      have hkd : dictLookup k d = Option.none := hdisj k (by simp [hk])
      rw [dictLookup_append k d _ hkd]
      have hne : key x ≠ k := by
        intro he; exact hxrest (he ▸ hk)
      simp [dictLookup, hne]
    simp only [List.foldl, dictInsert_of_lookup_none d (key x) (val x) hx]
    rw [ih _ hnd' hdisj']
    simp

/-- `full_loop` under the real walk conditions (distinct relative paths,
destination folder disjoint from the walk): the copied folder holds every
source file at its relative path, and `file_manifest` maps each relative
path to the digest of that file's content. -/
theorem full_loop_eq (init : FolderFiles) (src : Source)
    (hnd : (src.map Prod.fst).Nodup)
    (hdisj : ∀ k ∈ src.map Prod.fst, dictLookup k init = Option.none) :
    full_loop init src
      = (init ++ src, src.map (fun f => (f.1, calculate_file_hash f.2))) := by
  unfold full_loop
  rw [foldl_pair (fun d (p : String × Content) => dictInsert d p.1 p.2)
    (fun d (p : String × Content) => dictInsert d p.1 (calculate_file_hash p.2)) src init []]
  rw [foldl_dictInsert Prod.fst Prod.snd src init hnd hdisj]
  rw [foldl_dictInsert Prod.fst (fun p => calculate_file_hash p.2) src [] hnd (by
    intro k _; rfl)]
  simp

/-- `delta_loop` under the real walk conditions: exactly the files passing
the copy test land in the folder, the new `files` mapping records their
digests, and the backed-up count is their number. -/
theorem delta_loop_eq (init : FolderFiles) (last_files : List (String × String)) (src : Source)
    (hnd : (src.map Prod.fst).Nodup)
    (hdisj : ∀ k ∈ src.map Prod.fst, dictLookup k init = Option.none) :
    delta_loop init last_files src
      = (init ++ src.filter (shouldCopy last_files),
         (src.filter (shouldCopy last_files)).map (fun f => (f.1, calculate_file_hash f.2)),
         (src.filter (shouldCopy last_files)).length) := by
  have hndf : ((src.filter (shouldCopy last_files)).map Prod.fst).Nodup :=
    List.Nodup.sublist (List.Sublist.map Prod.fst (List.filter_sublist src)) hnd
  have hdisjf : ∀ k ∈ (src.filter (shouldCopy last_files)).map Prod.fst,
      dictLookup k init = Option.none := by
    intro k hk
    apply hdisj
    rcases List.mem_map.mp hk with ⟨p, hp, hpk⟩
    exact List.mem_map.mpr ⟨p, List.mem_of_mem_filter hp, hpk⟩
  unfold delta_loop
  rw [foldl_if_filter (shouldCopy last_files)
    (fun acc f => (dictInsert acc.1 f.1 f.2,
      dictInsert acc.2.1 f.1 (calculate_file_hash f.2), acc.2.2 + 1)) src (init, [], 0)]
  rw [foldl_triple (fun d (p : String × Content) => dictInsert d p.1 p.2)
    (fun d (p : String × Content) => dictInsert d p.1 (calculate_file_hash p.2))
    (fun c (_ : String × Content) => c + 1) (src.filter (shouldCopy last_files)) init [] 0]
  rw [foldl_dictInsert Prod.fst Prod.snd _ init hndf hdisjf]
  rw [foldl_dictInsert Prod.fst (fun p => calculate_file_hash p.2) _ [] hndf (by
    intro k _; rfl)]
  rw [foldl_count]
  simp

theorem setFolder_lookup (d : List (String × FolderFiles)) (name : String) (c : FolderFiles) :
    dictLookup name (setFolder d name c) = (dictLookup name d).map (fun _ => c) := by
  induction d with
  | nil => rfl
  | cons p rest ih =>
    by_cases hk : p.1 = name
    · simp [setFolder, dictLookup, hk]
    · simp only [setFolder] at ih ⊢
      simp [dictLookup, hk, ih]

theorem rmtreeFolder_lookup (d : List (String × FolderFiles)) (name : String) :
    dictLookup name (rmtreeFolder d name) = Option.none := by
  induction d with
  | nil => rfl
  | cons p rest ih =>
    by_cases hk : p.1 = name
    · simpa [rmtreeFolder, hk] using ih
    · simpa [rmtreeFolder, dictLookup, hk] using ih

theorem mkdirFolder_fresh (fs : List (String × FolderFiles)) (name : String)
    (h : dictLookup name fs = Option.none) :
    mkdirFolder fs name = fs ++ [(name, [])] := by
  simp [mkdirFolder, h]

theorem dictLookup_mkdirFolder_fresh (fs : List (String × FolderFiles)) (name : String)
    (h : dictLookup name fs = Option.none) :
    dictLookup name (mkdirFolder fs name) = some [] := by
  rw [mkdirFolder_fresh fs name h, dictLookup_append name fs _ h]
  simp [dictLookup]

/-- The copy test read back as the spec states it: a file is copied exactly
when its relative path is absent from the reference set or its digest
differs from the recorded one. -/
theorem shouldCopy_iff (lf : List (String × String)) (f : String × Content) :
    shouldCopy lf f = true
      ↔ (dictLookup f.1 lf = Option.none
          ∨ ¬ dictLookup f.1 lf = some (calculate_file_hash f.2)) := by
  unfold shouldCopy
  cases h : dictLookup f.1 lf with
  | none => simp
  | some d => by_cases hd : d = calculate_file_hash f.2 <;> simp [hd]

/-! ## Concrete sample data for witnesses -/

/-- A small source tree: `a.txt` and `sub/b.txt` with fixed contents. -/
def sampleSrc : Source := [("a.txt", [104, 101]), ("sub/b.txt", [119, 97])]

/-- The same tree with `a.txt` modified. -/
def sampleSrc2 : Source := [("a.txt", [104, 33]), ("sub/b.txt", [119, 97])]

/-- A pristine backup root: no per-run folders, no manifest file yet. -/
def fs0 : FS := ⟨[], .absent⟩

/-- The record a Full run over `sampleSrc` appends at timestamp `t1`. -/
def fullRec1 : BackupRecord :=
  ⟨.full, "t1", "full_backup_t1", sampleSrc.map (fun f => (f.1, calculate_file_hash f.2)),
    Option.none⟩

/-- Manifest after that Full run. -/
def manifest1 : Manifest := ⟨[fullRec1]⟩

/-- Backup root after the Full run over `sampleSrc`. -/
def fs1 : FS := ⟨[("full_backup_t1", sampleSrc)], .ok manifest1⟩

/-- The record an Incremental run over `sampleSrc2` appends on top of
`manifest1` at timestamp `t2`: only the modified `a.txt`. -/
def incrRec2 : BackupRecord :=
  ⟨.incremental, "t2", "incr_backup_t2",
    (sampleSrc2.filter (shouldCopy fullRec1.files)).map
      (fun f => (f.1, calculate_file_hash f.2)),
    some "t1"⟩

/-- Manifest after Full(t1) then Incremental(t2). -/
def manifest2 : Manifest := ⟨[fullRec1, incrRec2]⟩

/-- Backup root after Full(t1) then Incremental(t2). -/
def fs2 : FS :=
  ⟨[("full_backup_t1", sampleSrc),
    ("incr_backup_t2", sampleSrc2.filter (shouldCopy fullRec1.files))], .ok manifest2⟩

/-- A third state of the tree: `a.txt` modified once more. -/
def sampleSrc3 : Source := [("a.txt", [104, 104]), ("sub/b.txt", [119, 97])]

/-! ## The claims -/

/-- C1: for every source tree, a successful Full backup run copies every
regular file under the source root into the fresh backup folder preserving
its relative path, makes no comparison against any prior backup state (the
pre-state `fs` is universally quantified and the copied files and appended
record depend only on the walked tree and the timestamp), and appends a
record whose `files` map has exactly one entry per regular file present at
walk time, each mapped to a digest equal to the independently recomputed
digest of the copied file; the record has no parent field. -/
theorem c1_full_backup_snapshot (fs : FS) (src : Source) (ts : String)
    (hnd : (src.map Prod.fst).Nodup)
    (hfresh : dictLookup ("full_backup_" ++ ts) fs.folders = Option.none) :
    (full_backup fs src ts .none).outcome
        = .completed ("full_backup_" ++ ts) src.length
    ∧ dictLookup ("full_backup_" ++ ts) (full_backup fs src ts .none).fs.folders = some src
    ∧ (full_backup fs src ts .none).fs.store
        = .ok ⟨(load_manifest fs.store).backups
            ++ [⟨.full, ts, "full_backup_" ++ ts,
                src.map (fun f => (f.1, calculate_file_hash f.2)), Option.none⟩]⟩
    ∧ ∀ e ∈ src.map (fun f => (f.1, calculate_file_hash f.2)),
        ∃ c, (e.1, c) ∈ src ∧ calculate_file_hash c = e.2 := by
  have hlk : dictLookup ("full_backup_" ++ ts) (mkdirFolder fs.folders ("full_backup_" ++ ts))
      = some [] := dictLookup_mkdirFolder_fresh _ _ hfresh
  have hloop := full_loop_eq [] src hnd (fun k _ => rfl)
  refine ⟨?_, ?_, ?_, ?_⟩
  · simp [full_backup, loopFails]
  · simp only [full_backup, loopFails, hlk, Option.getD, hloop, List.nil_append,
      Bool.false_eq_true, if_false]
    simp only [setFolder_lookup, hlk]
    rfl
  · simp [full_backup, loopFails, hlk, hloop]
  · intro e he
    rcases List.mem_map.mp he with ⟨f, hf, rfl⟩
    exact ⟨f.2, hf, rfl⟩

/-- Witness for C1: the Full strategy run on the concrete two-file tree from
a pristine backup root. -/
theorem c1_full_backup_snapshot_witness :
    ((sampleSrc.map Prod.fst).Nodup
      ∧ dictLookup ("full_backup_" ++ "t1") fs0.folders = Option.none)
    ∧ ((full_backup fs0 sampleSrc "t1" .none).outcome
          = .completed ("full_backup_" ++ "t1") sampleSrc.length
        ∧ dictLookup ("full_backup_" ++ "t1") (full_backup fs0 sampleSrc "t1" .none).fs.folders
          = some sampleSrc
        ∧ (full_backup fs0 sampleSrc "t1" .none).fs.store
          = .ok ⟨(load_manifest fs0.store).backups
              ++ [⟨.full, "t1", "full_backup_" ++ "t1",
                  sampleSrc.map (fun f => (f.1, calculate_file_hash f.2)), Option.none⟩]⟩
        ∧ ∀ e ∈ sampleSrc.map (fun f => (f.1, calculate_file_hash f.2)),
            ∃ c, (e.1, c) ∈ sampleSrc ∧ calculate_file_hash c = e.2) :=
  ⟨⟨by decide, by decide⟩,
    c1_full_backup_snapshot fs0 sampleSrc "t1" (by decide) (by decide)⟩

/-- C2: for every non-empty manifest, an Incremental run takes as reference
set the `files` map of the single most recent record — `last` below is the
last record of the loaded manifest, of arbitrary kind — a source file is
copied and recorded exactly when its relative path is absent from that
reference set or its digest differs, and the appended record's parent
timestamp equals the reference record's timestamp. -/
theorem c2_incremental_reference_latest (fs : FS) (src : Source) (ts : String)
    (last : BackupRecord)
    (hlast : (load_manifest fs.store).backups.getLast? = some last)
    (hnd : (src.map Prod.fst).Nodup)
    (hfresh : dictLookup ("incr_backup_" ++ ts) fs.folders = Option.none)
    (hch : src.filter (shouldCopy last.files) ≠ []) :
    (incremental_backup fs src ts .none).outcome
        = .completed ("incr_backup_" ++ ts) (src.filter (shouldCopy last.files)).length
    ∧ dictLookup ("incr_backup_" ++ ts) (incremental_backup fs src ts .none).fs.folders
        = some (src.filter (shouldCopy last.files))
    ∧ (incremental_backup fs src ts .none).fs.store
        = .ok ⟨(load_manifest fs.store).backups
            ++ [⟨.incremental, ts, "incr_backup_" ++ ts,
                (src.filter (shouldCopy last.files)).map
                  (fun f => (f.1, calculate_file_hash f.2)),
                some last.timestamp⟩]⟩
    ∧ ∀ f ∈ src,
        ((f.1, calculate_file_hash f.2)
            ∈ (src.filter (shouldCopy last.files)).map
                (fun f => (f.1, calculate_file_hash f.2)))
          ↔ (dictLookup f.1 last.files = Option.none
              ∨ ¬ dictLookup f.1 last.files = some (calculate_file_hash f.2)) := by
  have hlk : dictLookup ("incr_backup_" ++ ts) (mkdirFolder fs.folders ("incr_backup_" ++ ts))
      = some [] := dictLookup_mkdirFolder_fresh _ _ hfresh
  have hloop := delta_loop_eq [] last.files src hnd (fun k _ => rfl)
  have hne : ((src.filter (shouldCopy last.files)).map
      (fun f => (f.1, calculate_file_hash f.2))).isEmpty = false := by
    cases hft : src.filter (shouldCopy last.files) with
    | nil => exact absurd hft hch
    | cons x xs => rfl
  refine ⟨?_, ?_, ?_, ?_⟩
  · simp [incremental_backup, hlast, loopFails, hlk, hloop, hne]
  · simp only [incremental_backup, hlast, loopFails, Bool.false_eq_true, if_false, hlk,
      Option.getD, hloop, hne, List.nil_append]
    rw [setFolder_lookup, hlk]
    rfl
  · simp [incremental_backup, hlast, loopFails, hlk, hloop, hne]
  · intro f hf
    constructor
    · intro hmem
      rcases List.mem_map.mp hmem with ⟨g, hg, hpair⟩
      have hgsrc : g ∈ src := List.mem_of_mem_filter hg
      have hgkey : g.1 = f.1 := (Prod.ext_iff.mp hpair).1
      have hgf : g = f := List.inj_on_of_nodup_map hnd hgsrc hf hgkey
      have hcopy : shouldCopy last.files f = true := by
        have := List.of_mem_filter hg
        rwa [hgf] at this
      exact (shouldCopy_iff last.files f).mp hcopy
    · intro hcond
      have hcopy : shouldCopy last.files f = true := (shouldCopy_iff last.files f).mpr hcond
      exact List.mem_map.mpr ⟨f, List.mem_filter_of_mem hf hcopy, rfl⟩

/-- Witness for C2: an Incremental run over the modified tree after the Full
run; `a.txt` changed, `sub/b.txt` did not. -/
theorem c2_incremental_reference_latest_witness :
    ((load_manifest fs1.store).backups.getLast? = some fullRec1
      ∧ (sampleSrc2.map Prod.fst).Nodup
      ∧ dictLookup ("incr_backup_" ++ "t2") fs1.folders = Option.none
      ∧ sampleSrc2.filter (shouldCopy fullRec1.files) ≠ [])
    ∧ ((incremental_backup fs1 sampleSrc2 "t2" .none).outcome
          = .completed ("incr_backup_" ++ "t2")
              (sampleSrc2.filter (shouldCopy fullRec1.files)).length
        ∧ dictLookup ("incr_backup_" ++ "t2")
            (incremental_backup fs1 sampleSrc2 "t2" .none).fs.folders
          = some (sampleSrc2.filter (shouldCopy fullRec1.files))
        ∧ (incremental_backup fs1 sampleSrc2 "t2" .none).fs.store
          = .ok ⟨(load_manifest fs1.store).backups
              ++ [⟨.incremental, "t2", "incr_backup_" ++ "t2",
                  (sampleSrc2.filter (shouldCopy fullRec1.files)).map
                    (fun f => (f.1, calculate_file_hash f.2)),
                  some fullRec1.timestamp⟩]⟩
        ∧ ∀ f ∈ sampleSrc2,
            ((f.1, calculate_file_hash f.2)
                ∈ (sampleSrc2.filter (shouldCopy fullRec1.files)).map
                    (fun f => (f.1, calculate_file_hash f.2)))
              ↔ (dictLookup f.1 fullRec1.files = Option.none
                  ∨ ¬ dictLookup f.1 fullRec1.files = some (calculate_file_hash f.2))) :=
  ⟨⟨by decide, by decide, by decide, by decide⟩,
    c2_incremental_reference_latest fs1 sampleSrc2 "t2" fullRec1
      (by decide) (by decide) (by decide) (by decide)⟩

theorem findLastFull_isEmpty_false (l : List BackupRecord) (r : BackupRecord)
    (h : findLastFull l = some r) : l.isEmpty = false := by
  cases l with
  | nil => simp [findLastFull] at h
  | cons x xs => rfl

/-- C3: for every manifest containing a Full record, a Differential run
takes as reference set the `files` map of the nearest Full record searching
backward from the most recent record (`findLastFull`, which is a Full
record and in general not the most recent record of the manifest), applies
the same copy/skip test as Incremental, and appends a record of kind
Differential whose parent timestamp is that Full record's timestamp. -/
theorem c3_differential_reference_last_full (fs : FS) (src : Source) (ts : String)
    (last_full : BackupRecord)
    (hfull : findLastFull (load_manifest fs.store).backups = some last_full)
    (hnd : (src.map Prod.fst).Nodup)
    (hfresh : dictLookup ("diff_backup_" ++ ts) fs.folders = Option.none)
    (hch : src.filter (shouldCopy last_full.files) ≠ []) :
    (differential_backup fs src ts .none).outcome
        = .completed ("diff_backup_" ++ ts) (src.filter (shouldCopy last_full.files)).length
    ∧ dictLookup ("diff_backup_" ++ ts) (differential_backup fs src ts .none).fs.folders
        = some (src.filter (shouldCopy last_full.files))
    ∧ (differential_backup fs src ts .none).fs.store
        = .ok ⟨(load_manifest fs.store).backups
            ++ [⟨.differential, ts, "diff_backup_" ++ ts,
                (src.filter (shouldCopy last_full.files)).map
                  (fun f => (f.1, calculate_file_hash f.2)),
                some last_full.timestamp⟩]⟩
    ∧ last_full.type = .full
    ∧ ∀ f ∈ src,
        ((f.1, calculate_file_hash f.2)
            ∈ (src.filter (shouldCopy last_full.files)).map
                (fun f => (f.1, calculate_file_hash f.2)))
          ↔ (dictLookup f.1 last_full.files = Option.none
              ∨ ¬ dictLookup f.1 last_full.files = some (calculate_file_hash f.2)) := by
  have hemp : (load_manifest fs.store).backups.isEmpty = false :=
    findLastFull_isEmpty_false _ _ hfull
  have hlk : dictLookup ("diff_backup_" ++ ts) (mkdirFolder fs.folders ("diff_backup_" ++ ts))
      = some [] := dictLookup_mkdirFolder_fresh _ _ hfresh
  have hloop := delta_loop_eq [] last_full.files src hnd (fun k _ => rfl)
  have hne : ((src.filter (shouldCopy last_full.files)).map
      (fun f => (f.1, calculate_file_hash f.2))).isEmpty = false := by
    cases hft : src.filter (shouldCopy last_full.files) with
    | nil => exact absurd hft hch
    | cons x xs => rfl
  refine ⟨?_, ?_, ?_, ?_, ?_⟩
  · simp [differential_backup, hemp, hfull, loopFails, hlk, hloop, hne]
  · simp only [differential_backup, hemp, hfull, loopFails, Bool.false_eq_true, if_false, hlk,
      Option.getD, hloop, hne, List.nil_append]
    rw [setFolder_lookup, hlk]
    rfl
  · simp [differential_backup, hemp, hfull, loopFails, hlk, hloop, hne]
  · have := List.find?_some hfull
    simpa using this
  · intro f hf
    constructor
    · intro hmem
      rcases List.mem_map.mp hmem with ⟨g, hg, hpair⟩
      have hgsrc : g ∈ src := List.mem_of_mem_filter hg
      have hgkey : g.1 = f.1 := (Prod.ext_iff.mp hpair).1
      have hgf : g = f := List.inj_on_of_nodup_map hnd hgsrc hf hgkey
      have hcopy : shouldCopy last_full.files f = true := by
        have := List.of_mem_filter hg
        rwa [hgf] at this
      exact (shouldCopy_iff last_full.files f).mp hcopy
    · intro hcond
      have hcopy : shouldCopy last_full.files f = true :=
        (shouldCopy_iff last_full.files f).mpr hcond
      exact List.mem_map.mpr ⟨f, List.mem_filter_of_mem hf hcopy, rfl⟩

/-- Witness for C3: the Differential run at `t3` over a chain
Full(`t1`), Incremental(`t2`): the reference is the Full record `fullRec1`
even though the Incremental record is more recent. -/
theorem c3_differential_reference_last_full_witness :
    (findLastFull (load_manifest fs2.store).backups = some fullRec1
      ∧ (sampleSrc3.map Prod.fst).Nodup
      ∧ dictLookup ("diff_backup_" ++ "t3") fs2.folders = Option.none
      ∧ sampleSrc3.filter (shouldCopy fullRec1.files) ≠ [])
    ∧ ((differential_backup fs2 sampleSrc3 "t3" .none).outcome
          = .completed ("diff_backup_" ++ "t3")
              (sampleSrc3.filter (shouldCopy fullRec1.files)).length
        ∧ dictLookup ("diff_backup_" ++ "t3")
            (differential_backup fs2 sampleSrc3 "t3" .none).fs.folders
          = some (sampleSrc3.filter (shouldCopy fullRec1.files))
        ∧ (differential_backup fs2 sampleSrc3 "t3" .none).fs.store
          = .ok ⟨(load_manifest fs2.store).backups
              ++ [⟨.differential, "t3", "diff_backup_" ++ "t3",
                  (sampleSrc3.filter (shouldCopy fullRec1.files)).map
                    (fun f => (f.1, calculate_file_hash f.2)),
                  some fullRec1.timestamp⟩]⟩
        ∧ fullRec1.type = .full
        ∧ ∀ f ∈ sampleSrc3,
            ((f.1, calculate_file_hash f.2)
                ∈ (sampleSrc3.filter (shouldCopy fullRec1.files)).map
                    (fun f => (f.1, calculate_file_hash f.2)))
              ↔ (dictLookup f.1 fullRec1.files = Option.none
                  ∨ ¬ dictLookup f.1 fullRec1.files = some (calculate_file_hash f.2))) :=
  ⟨⟨by decide, by decide, by decide, by decide⟩,
    c3_differential_reference_last_full fs2 sampleSrc3 "t3" fullRec1
      (by decide) (by decide) (by decide) (by decide)⟩

/-- C4: for every backup run of any strategy that reaches the
walk/hash/copy loop and suffers an exception on file `i` of the walk, the
backup folder created for that run does not exist afterwards, the persisted
manifest holds exactly the records it held before the run, and the error is
re-raised to the caller. -/
theorem c4_loop_failure_cleanup (s : Strategy) (fs : FS) (src : Source) (ts : String) (i : Nat)
    (hreach : reachesLoop s fs = true) (hi : i < src.length) :
    (run_backup s fs src ts (.ioError i)).outcome = .failed
    ∧ dictLookup (runFolderName s ts) (run_backup s fs src ts (.ioError i)).fs.folders
        = Option.none
    ∧ (run_backup s fs src ts (.ioError i)).fs.store = fs.store := by
  cases s with
  | full =>
    refine ⟨?_, ?_, ?_⟩ <;>
      simp [run_backup, full_backup, runFolderName, loopFails, hi, rmtreeFolder_lookup]
  | incremental =>
    rcases Option.isSome_iff_exists.mp hreach with ⟨last, hlast⟩
    refine ⟨?_, ?_, ?_⟩ <;>
      simp [run_backup, incremental_backup, runFolderName, hlast, loopFails, hi,
        rmtreeFolder_lookup]
  | differential =>
    rcases Option.isSome_iff_exists.mp hreach with ⟨lf, hlf⟩
    have hemp : (load_manifest fs.store).backups.isEmpty = false :=
      findLastFull_isEmpty_false _ _ hlf
    refine ⟨?_, ?_, ?_⟩ <;>
      simp [run_backup, differential_backup, runFolderName, hemp, hlf, loopFails, hi,
        rmtreeFolder_lookup]

/-- Witness for C4: a Full run on a pristine root failing on the first file
of the walk. -/
theorem c4_loop_failure_cleanup_witness :
    (reachesLoop .full fs0 = true ∧ 0 < sampleSrc.length)
    ∧ ((run_backup .full fs0 sampleSrc "t1" (.ioError 0)).outcome = .failed
        ∧ dictLookup (runFolderName .full "t1")
            (run_backup .full fs0 sampleSrc "t1" (.ioError 0)).fs.folders = Option.none
        ∧ (run_backup .full fs0 sampleSrc "t1" (.ioError 0)).fs.store = fs0.store) :=
  ⟨⟨by decide, by decide⟩,
    c4_loop_failure_cleanup .full fs0 sampleSrc "t1" 0 (by decide) (by decide)⟩

/-- C5 as stated is false on the code: when the copy phase succeeds and
`_save_manifest` then fails, the `except` handler of each strategy removes
the backup folder before re-raising, so the folder does not survive as an
orphan.  Here the concrete Full run whose save fails after 3 characters:
the error is surfaced, but the run's backup folder does not exist
afterwards. -/
theorem c5_counterexample :
    (full_backup fs0 sampleSrc "t1" (.saveFault 3)).outcome = .failed
    ∧ dictLookup ("full_backup_" ++ "t1")
        (full_backup fs0 sampleSrc "t1" (.saveFault 3)).fs.folders = Option.none := by
  decide

/-- Whether a run of strategy `s` reaches the `_save_manifest` call: its
preconditions hold and, for the delta strategies, at least one file passes
the copy test (otherwise the run is skipped before saving). -/
def saveReached (s : Strategy) (fs : FS) (src : Source) : Bool :=
  match s with
  | .full => true
  | .incremental =>
    match (load_manifest fs.store).backups.getLast? with
    | Option.none => false
    | some last => !(src.filter (shouldCopy last.files)).isEmpty
  | .differential =>
    match findLastFull (load_manifest fs.store).backups with
    | Option.none => false
    | some lf => !(src.filter (shouldCopy lf.files)).isEmpty

/-- C5 amended: for every run in which the copy phase completes
successfully but persisting the manifest fails, the error is surfaced to
the caller rather than silently swallowed, but the backup folder for that
run does not exist afterwards — the exception handler that cleans up
mid-loop failures also removes it — and the manifest file is left
truncated by the failed in-place write (`StoreState.corrupt`), which is the
inconsistent state a caller can detect. -/
theorem c5_persistence_failure_cleanup (s : Strategy) (fs : FS) (src : Source) (ts : String)
    (n : Nat) (hnd : (src.map Prod.fst).Nodup)
    (hfresh : dictLookup (runFolderName s ts) fs.folders = Option.none)
    (hsave : saveReached s fs src = true) :
    (run_backup s fs src ts (.saveFault n)).outcome = .failed
    ∧ dictLookup (runFolderName s ts) (run_backup s fs src ts (.saveFault n)).fs.folders
        = Option.none
    ∧ (run_backup s fs src ts (.saveFault n)).fs.store = .corrupt := by
  cases s with
  | full =>
    refine ⟨?_, ?_, ?_⟩ <;>
      simp [run_backup, full_backup, runFolderName, loopFails, rmtreeFolder_lookup]
  | incremental =>
    cases hlast : (load_manifest fs.store).backups.getLast? with
    | none => simp [saveReached, hlast] at hsave
    | some last =>
      have hlk : dictLookup ("incr_backup_" ++ ts)
          (mkdirFolder fs.folders ("incr_backup_" ++ ts)) = some [] :=
        dictLookup_mkdirFolder_fresh _ _ hfresh
      have hloop := delta_loop_eq [] last.files src hnd (fun k _ => rfl)
      have hne : ((src.filter (shouldCopy last.files)).map
          (fun f => (f.1, calculate_file_hash f.2))).isEmpty = false := by
        cases hft : src.filter (shouldCopy last.files) with
        | nil => simp [saveReached, hlast, hft] at hsave
        | cons x xs => rfl
      refine ⟨?_, ?_, ?_⟩ <;>
        simp [run_backup, incremental_backup, runFolderName, hlast, loopFails, hlk,
          hloop, hne, rmtreeFolder_lookup]
  | differential =>
    cases hlf : findLastFull (load_manifest fs.store).backups with
    | none => simp [saveReached, hlf] at hsave
    | some lf =>
      have hemp : (load_manifest fs.store).backups.isEmpty = false :=
        findLastFull_isEmpty_false _ _ hlf
      have hlk : dictLookup ("diff_backup_" ++ ts)
          (mkdirFolder fs.folders ("diff_backup_" ++ ts)) = some [] :=
        dictLookup_mkdirFolder_fresh _ _ hfresh
      have hloop := delta_loop_eq [] lf.files src hnd (fun k _ => rfl)
      have hne : ((src.filter (shouldCopy lf.files)).map
          (fun f => (f.1, calculate_file_hash f.2))).isEmpty = false := by
        cases hft : src.filter (shouldCopy lf.files) with
        | nil => simp [saveReached, hlf, hft] at hsave
        | cons x xs => rfl
      refine ⟨?_, ?_, ?_⟩ <;>
        simp [run_backup, differential_backup, runFolderName, hemp, hlf, loopFails, hlk,
          hloop, hne, rmtreeFolder_lookup]

/-- Witness for the amended C5: the Incremental run over the modified tree
whose save fails after 7 characters. -/
theorem c5_persistence_failure_cleanup_witness :
    ((sampleSrc2.map Prod.fst).Nodup
      ∧ dictLookup (runFolderName .incremental "t2") fs1.folders = Option.none
      ∧ saveReached .incremental fs1 sampleSrc2 = true)
    ∧ ((run_backup .incremental fs1 sampleSrc2 "t2" (.saveFault 7)).outcome = .failed
        ∧ dictLookup (runFolderName .incremental "t2")
            (run_backup .incremental fs1 sampleSrc2 "t2" (.saveFault 7)).fs.folders
          = Option.none
        ∧ (run_backup .incremental fs1 sampleSrc2 "t2" (.saveFault 7)).fs.store = .corrupt) :=
  ⟨⟨by decide, by decide, by decide⟩,
    c5_persistence_failure_cleanup .incremental fs1 sampleSrc2 "t2" 7
      (by decide) (by decide) (by decide)⟩

/-- C6 as stated is false on the code: `_save_manifest` writes the manifest
file in place (no temporary file, no atomic rename — opening with mode `w`
truncates the old content immediately).  Concretely, a save of the
one-record manifest `manifest1` over a file that held the empty manifest's
serialization and failed after 10 characters: the error is raised, but the
file is left holding a half-written state — neither the old nor the new
serialization — and a subsequent `_load_manifest` silently accepts the file,
returning the empty manifest instead of failing. -/
theorem c6_counterexample :
    (save_manifest_file manifest1 (some 10)).2 = true
    ∧ ¬ ((save_manifest_file manifest1 (some 10)).1 = serializeManifest ⟨[]⟩
        ∨ (save_manifest_file manifest1 (some 10)).1 = serializeManifest manifest1)
    ∧ parseManifest (save_manifest_file manifest1 (some 10)).1 = Option.none
    ∧ load_manifest_file (some (save_manifest_file manifest1 (some 10)).1) = ⟨[]⟩ := by
  decide

/-- C6 amended: every failing manifest save raises the error to the caller,
but the write is performed in place, so a failure after `n` characters
leaves the manifest file holding exactly the first `n` characters of the
new serialization; whenever that truncation does not parse, a subsequent
load does not reject it but silently yields the empty manifest (no
temporary-location-and-rename technique is used). -/
theorem c6_save_truncates_in_place (m : Manifest) (n : Nat)
    (hn : parseManifest ((serializeManifest m).take n) = Option.none) :
    (save_manifest_file m (some n)).2 = true
    ∧ (save_manifest_file m (some n)).1 = (serializeManifest m).take n
    ∧ load_manifest_file (some (save_manifest_file m (some n)).1) = ⟨[]⟩ := by
  refine ⟨rfl, rfl, ?_⟩
  simp [save_manifest_file, load_manifest_file, hn]

/-- Witness for the amended C6 at the concrete truncated save. -/
theorem c6_save_truncates_in_place_witness :
    parseManifest ((serializeManifest manifest1).take 10) = Option.none
    ∧ ((save_manifest_file manifest1 (some 10)).2 = true
        ∧ (save_manifest_file manifest1 (some 10)).1 = (serializeManifest manifest1).take 10
        ∧ load_manifest_file (some (save_manifest_file manifest1 (some 10)).1) = ⟨[]⟩) :=
  ⟨by decide, c6_save_truncates_in_place manifest1 10 (by decide)⟩

/-- C7: an Incremental run requested with an empty manifest, and a
Differential run requested with an empty manifest or with no Full record
anywhere in the manifest, return a skipped outcome to the caller — not an
exception — and append no manifest record. -/
theorem c7_precondition_skip (fs fs' : FS) (src : Source) (ts : String) (fault : RunFault)
    (hemp : (load_manifest fs.store).backups = [])
    (hnofull : findLastFull (load_manifest fs'.store).backups = Option.none) :
    ((incremental_backup fs src ts fault).outcome = .skipped
      ∧ (incremental_backup fs src ts fault).fs.store = fs.store)
    ∧ ((differential_backup fs src ts fault).outcome = .skipped
      ∧ (differential_backup fs src ts fault).fs.store = fs.store)
    ∧ ((differential_backup fs' src ts fault).outcome = .skipped
      ∧ (differential_backup fs' src ts fault).fs.store = fs'.store) := by
  refine ⟨⟨?_, ?_⟩, ⟨?_, ?_⟩, ⟨?_, ?_⟩⟩
  · simp [incremental_backup, hemp]
  · simp [incremental_backup, hemp]
  · simp [differential_backup, hemp]
  · simp [differential_backup, hemp]
  · cases hb : (load_manifest fs'.store).backups.isEmpty <;>
      simp [differential_backup, hb, hnofull]
  · cases hb : (load_manifest fs'.store).backups.isEmpty <;>
      simp [differential_backup, hb, hnofull]

/-- A manifest whose only record is an Incremental one: a Differential run
against it has no Full ancestor to reference. -/
def incOnlyManifest : Manifest :=
  ⟨[⟨.incremental, "t9", "incr_backup_t9", [("x.txt", "h")], some "t8"⟩]⟩

/-- A backup root whose manifest holds only an Incremental record. -/
def fsIncOnly : FS := ⟨[("incr_backup_t9", [("x.txt", [1])])], .ok incOnlyManifest⟩

/-- Witness for C7: the empty manifest of a pristine root, and the
Full-free manifest `incOnlyManifest`. -/
theorem c7_precondition_skip_witness :
    ((load_manifest fs0.store).backups = []
      ∧ findLastFull (load_manifest fsIncOnly.store).backups = Option.none)
    ∧ (((incremental_backup fs0 sampleSrc "t5" .none).outcome = .skipped
        ∧ (incremental_backup fs0 sampleSrc "t5" .none).fs.store = fs0.store)
      ∧ ((differential_backup fs0 sampleSrc "t5" .none).outcome = .skipped
        ∧ (differential_backup fs0 sampleSrc "t5" .none).fs.store = fs0.store)
      ∧ ((differential_backup fsIncOnly sampleSrc "t5" .none).outcome = .skipped
        ∧ (differential_backup fsIncOnly sampleSrc "t5" .none).fs.store = fsIncOnly.store)) :=
  ⟨⟨by decide, by decide⟩,
    c7_precondition_skip fs0 fsIncOnly sampleSrc "t5" .none (by decide) (by decide)⟩

theorem foldl_skip_all {α β : Type} (p : β → Bool) (g : α → β → α) :
    ∀ (l : List β) (a : α), (∀ x ∈ l, p x = false) →
      l.foldl (fun acc x => if p x then g acc x else acc) a = a
  | [], _, _ => rfl
  | x :: xs, a, hall => by
    have hx : p x = false := hall x (by simp)
    simp only [List.foldl, hx, Bool.false_eq_true, if_false]
    exact foldl_skip_all p g xs a (fun f hf => hall f (by simp [hf]))

theorem delta_loop_no_changes (init : FolderFiles) (lf : List (String × String)) (src : Source)
    (hch : src.filter (shouldCopy lf) = []) :
    delta_loop init lf src = (init, [], 0) := by
  have hall : ∀ f ∈ src, shouldCopy lf f = false := by
    intro f hf
    cases h : shouldCopy lf f with
    | false => rfl
    | true =>
      have hmem : f ∈ src.filter (shouldCopy lf) := List.mem_filter_of_mem hf h
      rw [hch] at hmem
      cases hmem
  exact foldl_skip_all (shouldCopy lf) _ src (init, [], 0) hall

/-- C8: for every Incremental or Differential run whose walk completes with
no file new or changed relative to the reference set, the newly created
backup folder is deleted again (the run's trace is exactly create-then-
remove), no manifest record is appended, and a skipped outcome is reported
instead of a completion. -/
theorem c8_no_changes_skip (fs fs' : FS) (src : Source) (ts : String)
    (last lf : BackupRecord)
    (hlast : (load_manifest fs.store).backups.getLast? = some last)
    (hch : src.filter (shouldCopy last.files) = [])
    (hlf : findLastFull (load_manifest fs'.store).backups = some lf)
    (hch' : src.filter (shouldCopy lf.files) = []) :
    ((incremental_backup fs src ts .none).outcome = .skipped
      ∧ dictLookup ("incr_backup_" ++ ts) (incremental_backup fs src ts .none).fs.folders
          = Option.none
      ∧ (incremental_backup fs src ts .none).fs.store = fs.store
      ∧ (incremental_backup fs src ts .none).events
          = [.mkdir ("incr_backup_" ++ ts), .rmtree ("incr_backup_" ++ ts)])
    ∧ ((differential_backup fs' src ts .none).outcome = .skipped
      ∧ dictLookup ("diff_backup_" ++ ts) (differential_backup fs' src ts .none).fs.folders
          = Option.none
      ∧ (differential_backup fs' src ts .none).fs.store = fs'.store
      ∧ (differential_backup fs' src ts .none).events
          = [.mkdir ("diff_backup_" ++ ts), .rmtree ("diff_backup_" ++ ts)]) := by
  have hemp : (load_manifest fs'.store).backups.isEmpty = false :=
    findLastFull_isEmpty_false _ _ hlf
  have hloop := delta_loop_no_changes
    ((dictLookup ("incr_backup_" ++ ts) (mkdirFolder fs.folders ("incr_backup_" ++ ts))).getD [])
    last.files src hch
  have hloop' := delta_loop_no_changes
    ((dictLookup ("diff_backup_" ++ ts) (mkdirFolder fs'.folders ("diff_backup_" ++ ts))).getD [])
    lf.files src hch'
  refine ⟨⟨?_, ?_, ?_, ?_⟩, ⟨?_, ?_, ?_, ?_⟩⟩ <;>
    simp [incremental_backup, differential_backup, hlast, hemp, hlf, loopFails,
      hloop, hloop', rmtreeFolder_lookup]

/-- Witness for C8: re-running Incremental right after the Full run with an
unchanged tree, and running Differential on the Full+Incremental chain with
the tree matching the Full snapshot. -/
theorem c8_no_changes_skip_witness :
    ((load_manifest fs1.store).backups.getLast? = some fullRec1
      ∧ sampleSrc.filter (shouldCopy fullRec1.files) = []
      ∧ findLastFull (load_manifest fs2.store).backups = some fullRec1
      ∧ sampleSrc.filter (shouldCopy fullRec1.files) = [])
    ∧ (((incremental_backup fs1 sampleSrc "t6" .none).outcome = .skipped
        ∧ dictLookup ("incr_backup_" ++ "t6")
            (incremental_backup fs1 sampleSrc "t6" .none).fs.folders = Option.none
        ∧ (incremental_backup fs1 sampleSrc "t6" .none).fs.store = fs1.store
        ∧ (incremental_backup fs1 sampleSrc "t6" .none).events
            = [.mkdir ("incr_backup_" ++ "t6"), .rmtree ("incr_backup_" ++ "t6")])
      ∧ ((differential_backup fs2 sampleSrc "t6" .none).outcome = .skipped
        ∧ dictLookup ("diff_backup_" ++ "t6")
            (differential_backup fs2 sampleSrc "t6" .none).fs.folders = Option.none
        ∧ (differential_backup fs2 sampleSrc "t6" .none).fs.store = fs2.store
        ∧ (differential_backup fs2 sampleSrc "t6" .none).events
            = [.mkdir ("diff_backup_" ++ "t6"), .rmtree ("diff_backup_" ++ "t6")])) :=
  ⟨⟨by decide, by decide, by decide, by decide⟩,
    c8_no_changes_skip fs1 fs2 sampleSrc "t6" fullRec1 fullRec1
      (by decide) (by decide) (by decide) (by decide)⟩

/-- C9 as stated is false on the code: the per-run subfolders are named
`full_backup_<timestamp>`, `incr_backup_<timestamp>` and
`diff_backup_<timestamp>`, not `full_<timestamp>`, `incr_<timestamp>`,
`diff_<timestamp>`.  Concretely, a Full run at timestamp
`20250102_030405` creates `full_backup_20250102_030405`; no folder named
`full_20250102_030405` exists afterwards. -/
theorem c9_counterexample :
    (full_backup fs0 sampleSrc "20250102_030405" .none).events.head?
        = some (.mkdir "full_backup_20250102_030405")
    ∧ ¬ "full_backup_20250102_030405" = "full_" ++ "20250102_030405"
    ∧ dictLookup ("full_" ++ "20250102_030405")
        (full_backup fs0 sampleSrc "20250102_030405" .none).fs.folders = Option.none
    ∧ (dictLookup "full_backup_20250102_030405"
        (full_backup fs0 sampleSrc "20250102_030405" .none).fs.folders).isSome = true := by
  decide

/-- C9 amended: for every run that reaches folder creation, the first
filesystem action is creating the per-run subfolder under the backup root,
and its name is `full_backup_<timestamp>` for a Full run,
`incr_backup_<timestamp>` for an Incremental run and
`diff_backup_<timestamp>` for a Differential run, where `<timestamp>` is
the record's timestamp string. -/
theorem c9_run_folder_names (s : Strategy) (fs : FS) (src : Source) (ts : String)
    (fault : RunFault) (hreach : reachesLoop s fs = true) :
    (run_backup s fs src ts fault).events.head? = some (.mkdir (runFolderName s ts))
    ∧ runFolderName .full ts = "full_backup_" ++ ts
    ∧ runFolderName .incremental ts = "incr_backup_" ++ ts
    ∧ runFolderName .differential ts = "diff_backup_" ++ ts := by
  refine ⟨?_, rfl, rfl, rfl⟩
  cases s with
  | full =>
    simp only [run_backup, full_backup, runFolderName]
    split
    · rfl
    · split <;> rfl
  | incremental =>
    rcases Option.isSome_iff_exists.mp hreach with ⟨last, hlast⟩
    simp only [run_backup, incremental_backup, runFolderName, hlast]
    split
    · rfl
    · split
      · rfl
      · split <;> rfl
  | differential =>
    rcases Option.isSome_iff_exists.mp hreach with ⟨lf, hlf⟩
    have hemp : (load_manifest fs.store).backups.isEmpty = false :=
      findLastFull_isEmpty_false _ _ hlf
    simp only [run_backup, differential_backup, runFolderName, hemp, hlf,
      Bool.false_eq_true, if_false]
    split
    · rfl
    · split
      · rfl
      · split <;> rfl

/-- Witness for the amended C9: a Full run on the pristine root. -/
theorem c9_run_folder_names_witness :
    reachesLoop .full fs0 = true
    ∧ ((run_backup .full fs0 sampleSrc "t1" .none).events.head?
          = some (.mkdir (runFolderName .full "t1"))
        ∧ runFolderName .full "t1" = "full_backup_" ++ "t1"
        ∧ runFolderName .incremental "t1" = "incr_backup_" ++ "t1"
        ∧ runFolderName .differential "t1" = "diff_backup_" ++ "t1") :=
  ⟨by decide, c9_run_folder_names .full fs0 sampleSrc "t1" .none (by decide)⟩

/-- C10: when an Incremental run is skipped because the manifest is empty,
or a Differential run is skipped because the manifest is empty or holds no
Full record, the run performs no filesystem action at all — no backup
folder is created (unlike the no-changes case, whose trace is
create-then-remove, see the C8 theorem) and the manifest file is not
written: the final state is exactly the initial one and the event trace is
empty. -/
theorem c10_precondition_before_mkdir (fs fs' : FS) (src : Source) (ts : String)
    (fault : RunFault)
    (hemp : (load_manifest fs.store).backups = [])
    (hnofull : findLastFull (load_manifest fs'.store).backups = Option.none) :
    ((incremental_backup fs src ts fault).events = []
      ∧ (incremental_backup fs src ts fault).fs = fs)
    ∧ ((differential_backup fs src ts fault).events = []
      ∧ (differential_backup fs src ts fault).fs = fs)
    ∧ ((differential_backup fs' src ts fault).events = []
      ∧ (differential_backup fs' src ts fault).fs = fs') := by
  refine ⟨⟨?_, ?_⟩, ⟨?_, ?_⟩, ⟨?_, ?_⟩⟩
  · simp [incremental_backup, hemp]
  · simp [incremental_backup, hemp]
  · simp [differential_backup, hemp]
  · simp [differential_backup, hemp]
  · cases hb : (load_manifest fs'.store).backups.isEmpty <;>
      simp [differential_backup, hb, hnofull]
  · cases hb : (load_manifest fs'.store).backups.isEmpty <;>
      simp [differential_backup, hb, hnofull]

/-- Witness for C10: the pristine root and the Full-free manifest. -/
theorem c10_precondition_before_mkdir_witness :
    ((load_manifest fs0.store).backups = []
      ∧ findLastFull (load_manifest fsIncOnly.store).backups = Option.none)
    ∧ (((incremental_backup fs0 sampleSrc "t5" .none).events = []
        ∧ (incremental_backup fs0 sampleSrc "t5" .none).fs = fs0)
      ∧ ((differential_backup fs0 sampleSrc "t5" .none).events = []
        ∧ (differential_backup fs0 sampleSrc "t5" .none).fs = fs0)
      ∧ ((differential_backup fsIncOnly sampleSrc "t5" .none).events = []
        ∧ (differential_backup fsIncOnly sampleSrc "t5" .none).fs = fsIncOnly)) :=
  ⟨⟨by decide, by decide⟩,
    c10_precondition_before_mkdir fs0 fsIncOnly sampleSrc "t5" .none (by decide) (by decide)⟩

/-- Sanity check of the byte-level model: the parser inverts the
serializer on the empty manifest. -/
theorem parse_serialize_empty : parseManifest (serializeManifest ⟨[]⟩) = some ⟨[]⟩ := by
  decide

/-- Sanity check of the byte-level model: the parser inverts the serializer
on a two-record manifest exercising a multi-entry `files` object and both
the absent- and present-`parent` shapes. -/
theorem parse_serialize_chain :
    parseManifest (serializeManifest
      ⟨[⟨.full, "t0", "full_backup_t0", [("a.txt", "h1"), ("b.txt", "h2")], Option.none⟩,
        ⟨.incremental, "t1", "incr_backup_t1", [("a.txt", "h3")], some "t0"⟩]⟩)
      = some ⟨[⟨.full, "t0", "full_backup_t0", [("a.txt", "h1"), ("b.txt", "h2")], Option.none⟩,
        ⟨.incremental, "t1", "incr_backup_t1", [("a.txt", "h3")], some "t0"⟩]⟩ := by
  decide

end Backup
